import Mathlib

/-!
# Verification of the claus-rs conversation/streaming protocol engine

A shallow embedding of the core of the `claus-rs` repository:

* the incremental JSON object boundary scanner (`src/json_scan.rs`),
* the message/content data model and `StreamingMessage::update`
  (`src/anthropic.rs`),
* the conversation engine (`src/conversation.rs`), and
* the retry policy of `send_request` (`examples/assistant/main.rs`).

Rust mutable state is modelled by explicit state passing; `u8` bytes are
modelled as `Nat`; fallible operations return `Option`/`Except`.
-/

namespace Claus

/-! ## JSON object boundary scanner (`src/json_scan.rs`) -/

/-- `ScanState` from `json_scan.rs`. -/
inductive ScanState where
  | lookingForStart
  | inObject
  | inString
  | inEscape
deriving DecidableEq, Repr

/-- `ScanResult` from `json_scan.rs`: `Found n` carries the split point in
the input slice. -/
inductive ScanResult where
  | needsMore
  | error
  | found (n : Nat)
deriving DecidableEq, Repr

/-- `JsonScanner` from `json_scan.rs`: current state and open brace depth. -/
structure JsonScanner where
  state : ScanState
  brace_depth : Nat
deriving DecidableEq, Repr

/-- `JsonScanner::new` (also the effect of `JsonScanner::reset`). -/
def JsonScanner.new : JsonScanner := ⟨ScanState.lookingForStart, 0⟩

/-- `u8::is_ascii_whitespace`: space, horizontal tab, newline, form feed,
carriage return. -/
def isAsciiWhitespace (b : Nat) : Bool :=
  b = 32 || b = 9 || b = 10 || b = 12 || b = 13

/-- Outcome of processing one byte inside `JsonScanner::scan`'s loop:
either the loop continues with an updated scanner, or it returns
(`Found`, after `reset`, or `Error` with the scanner untouched). -/
inductive StepRes where
  | cont (s : JsonScanner)
  | found (s : JsonScanner)
  | err (s : JsonScanner)
deriving DecidableEq, Repr

/-- The body of the `for` loop of `JsonScanner::scan`, acting on a single
byte.  On a closing brace at depth 1 the scanner resets and reports the
object end; the depth decrement mirrors `self.brace_depth -= 1`. -/
def scanStep (s : JsonScanner) (byte : Nat) : StepRes :=
  match s.state with
  | ScanState.lookingForStart =>
    if isAsciiWhitespace byte then StepRes.cont s
    else if byte = 123 then StepRes.cont ⟨ScanState.inObject, 1⟩
    else StepRes.err s
  | ScanState.inObject =>
    if byte = 123 then StepRes.cont ⟨ScanState.inObject, s.brace_depth + 1⟩
    else if byte = 125 then
      if s.brace_depth - 1 = 0 then StepRes.found JsonScanner.new
      else StepRes.cont ⟨ScanState.inObject, s.brace_depth - 1⟩
    else if byte = 34 then StepRes.cont ⟨ScanState.inString, s.brace_depth⟩
    else StepRes.cont s
  | ScanState.inString =>
    if byte = 34 then StepRes.cont ⟨ScanState.inObject, s.brace_depth⟩
    else if byte = 92 then StepRes.cont ⟨ScanState.inEscape, s.brace_depth⟩
    else StepRes.cont s
  | ScanState.inEscape => StepRes.cont ⟨ScanState.inString, s.brace_depth⟩

/-- The loop of `JsonScanner::scan`, tracking the enumeration index `i`.
Returns the `ScanResult` together with the scanner state left behind by
the call (the `&mut self` after the call). -/
def scanGo (s : JsonScanner) : List Nat → Nat → ScanResult × JsonScanner
  | [], _ => (ScanResult.needsMore, s)
  | b :: rest, i =>
    match scanStep s b with
    | StepRes.cont s' => scanGo s' rest (i + 1)
    | StepRes.found s' => (ScanResult.found (i + 1), s')
    | StepRes.err s' => (ScanResult.error, s')

/-- `JsonScanner::scan`: scan an input slice, returning the result and the
scanner state after the call. -/
def scan (s : JsonScanner) (input : List Nat) : ScanResult × JsonScanner :=
  scanGo s input 0

/-- Feeding a sequence of chunks to the scanner one `scan` call at a time,
collecting the per-call results (callers do exactly this when data
arrives fragmented). -/
def feed : JsonScanner → List (List Nat) → List ScanResult × JsonScanner
  | s, [] => ([], s)
  | s, c :: cs => ((scan s c).1 :: (feed (scan s c).2 cs).1, (feed (scan s c).2 cs).2)

/-- Shift the `Found` offset of a scan outcome by a base offset `k`;
other outcomes are unchanged. -/
def addOffset (k : Nat) : ScanResult × JsonScanner → ScanResult × JsonScanner
  | (ScanResult.found n, s) => (ScanResult.found (k + n), s)
  | (r, s) => (r, s)

theorem addOffset_addOffset (k m : Nat) (p : ScanResult × JsonScanner) :
    addOffset k (addOffset m p) = addOffset (k + m) p := by
  rcases p with ⟨r, s⟩
  cases r <;> simp [addOffset, Nat.add_assoc]

theorem addOffset_zero (p : ScanResult × JsonScanner) : addOffset 0 p = p := by
  rcases p with ⟨r, s⟩
  cases r <;> simp [addOffset]

/-- The enumeration index only shifts the reported `Found` offset. -/
theorem scanGo_index (l : List Nat) (s : JsonScanner) (i : Nat) :
    scanGo s l i = addOffset i (scanGo s l 0) := by
  induction l generalizing s i with
  | nil => simp [scanGo, addOffset]
  | cons b rest ih =>
    simp only [scanGo]
    cases scanStep s b with
    | cont s' =>
      dsimp only
      rw [ih s' (i + 1), ih s' (0 + 1), addOffset_addOffset]
    | found s' => dsimp only; simp [addOffset]
    | err s' => dsimp only; simp [addOffset]

/-- A reported `Found` offset never exceeds the scanned slice. -/
theorem scanGo_found_le (l : List Nat) (s : JsonScanner) (i n : Nat)
    (h : (scanGo s l i).1 = ScanResult.found n) : n ≤ i + l.length := by
  induction l generalizing s i with
  | nil => simp [scanGo] at h
  | cons b rest ih =>
    simp only [scanGo] at h
    cases hs : scanStep s b with
    | cont s' =>
      rw [hs] at h
      dsimp only at h
      have := ih s' (i + 1) h
      simp only [List.length_cons]
      omega
    | found s' =>
      rw [hs] at h
      dsimp only at h
      simp at h
      simp only [List.length_cons]
      omega
    | err s' => rw [hs] at h; dsimp only at h; simp at h

/-- Scanning a concatenation: a terminal result inside `a` is returned as
is (the `for` loop returns early); otherwise scanning continues into `b`
from the state left behind by `a`, at base index `a.length`. -/
theorem scanGo_append (a b : List Nat) (s : JsonScanner) (i : Nat) :
    scanGo s (a ++ b) i =
      match scanGo s a i with
      | (ScanResult.needsMore, s') => scanGo s' b (i + a.length)
      | p => p := by
  induction a generalizing s i with
  | nil => simp [scanGo]
  | cons hd tl ih =>
    simp only [List.cons_append, scanGo]
    cases scanStep s hd with
    | cont s' =>
      dsimp only
      show scanGo s' (tl ++ b) (i + 1) = _
      rw [ih]
      rcases h : scanGo s' tl (i + 1) with ⟨r, s''⟩
      cases r with
      | needsMore =>
        dsimp only
        have : i + 1 + tl.length = i + (hd :: tl).length := by
          simp only [List.length_cons]; omega
        rw [this]
      | error => rfl
      | found n => rfl
    | found s' => rfl
    | err s' => rfl

/-- `scan_append` phrased on `scan`, with `addOffset` shifting the
continuation's offsets. -/
theorem scan_append (s : JsonScanner) (a b : List Nat) :
    scan s (a ++ b) =
      match scan s a with
      | (ScanResult.needsMore, s') => addOffset a.length (scan s' b)
      | p => p := by
  unfold scan
  rw [scanGo_append]
  rcases h : scanGo s a 0 with ⟨r, s'⟩
  cases r with
  | needsMore =>
    dsimp only
    rw [scanGo_index b s' (0 + a.length)]
    norm_num
  | error => rfl
  | found n => rfl

/-- Core fragmentation lemma, generalized over the starting scanner
state: when scanning the whole concatenation from `s` reports `Found`
exactly at the end of the input, feeding the chunks one `scan` call at a
time yields `NeedsMore` for every chunk but the last, and `Found` at the
end of the last chunk. -/
theorem feed_found_general (cs : List (List Nat)) (clast : List Nat)
    (s : JsonScanner) (hlast : clast ≠ [])
    (hfound : (scan s ((cs ++ [clast]).flatten)).1 =
      ScanResult.found ((cs ++ [clast]).flatten).length) :
    (feed s (cs ++ [clast])).1 =
      List.replicate cs.length ScanResult.needsMore ++
        [ScanResult.found clast.length] := by
  induction cs generalizing s with
  | nil =>
    simp only [List.nil_append, List.flatten_cons, List.flatten_nil,
      List.append_nil] at hfound
    simp [feed, hfound]
  | cons c cs ih =>
    have hflat : ((c :: cs ++ [clast]).flatten) = c ++ (cs ++ [clast]).flatten := by
      simp
    rw [hflat] at hfound
    have happ := scan_append s c ((cs ++ [clast]).flatten)
    have hrestlen : 1 ≤ ((cs ++ [clast]).flatten).length := by
      have : clast.length ≤ ((cs ++ [clast]).flatten).length := by
        simp [List.flatten_append]
      have hc : 0 < clast.length := List.length_pos.mpr hlast
      omega
    rcases h : scan s c with ⟨r, s'⟩
    rw [h] at happ
    cases r with
    | needsMore =>
      dsimp only at happ
      rcases h2 : scan s' ((cs ++ [clast]).flatten) with ⟨r2, s2⟩
      rw [h2] at happ
      cases r2 with
      | needsMore => rw [happ] at hfound; simp [addOffset] at hfound
      | error => rw [happ] at hfound; simp [addOffset] at hfound
      | found m =>
        rw [happ] at hfound
        simp only [addOffset, List.length_append] at hfound
        have hm : m = ((cs ++ [clast]).flatten).length := by
          have := ScanResult.found.inj hfound
          omega
        have ihres := ih s' (by rw [h2, hm])
        simp only [List.cons_append, feed, h, List.length_cons,
          List.replicate_succ, List.cons_append]
        have hcast : (feed s' (cs.append [clast])).1 =
            (feed s' (cs ++ [clast])).1 := rfl
        rw [hcast, ihres]
    | error =>
      rw [happ] at hfound
      simp at hfound
    | found n =>
      rw [happ] at hfound
      have hn : n = c.length + ((cs ++ [clast]).flatten).length := by
        have := ScanResult.found.inj hfound
        simpa [List.length_append] using this
      have hle : n ≤ 0 + c.length := scanGo_found_le c s 0 n (by
        have : (scan s c).1 = ScanResult.found n := by rw [h]
        exact this)
      omega

/-- C1: for a byte string `S` that is one complete JSON object (a fresh
scan of `S` whole reports `Found` exactly at the end of `S`), feeding any
splitting of `S` into non-empty chunks to a fresh scanner one `scan` call
at a time yields `NeedsMore` on every chunk before the one containing
the final closing brace and exactly one `Found`, at the offset inside
the final chunk that corresponds to the same absolute end-of-object
position (`S.length` = sum of all chunk lengths). -/
theorem scanner_fragmentation (cs : List (List Nat)) (clast : List Nat)
    (S : List Nat) (hne : ∀ c ∈ cs ++ [clast], c ≠ [])
    (hS : (cs ++ [clast]).flatten = S)
    (hfound : (scan JsonScanner.new S).1 = ScanResult.found S.length) :
    (feed JsonScanner.new (cs ++ [clast])).1 =
      List.replicate cs.length ScanResult.needsMore ++
        [ScanResult.found clast.length] := by
  subst hS
  exact feed_found_general cs clast JsonScanner.new
    (hne clast (by simp)) hfound

/-- Witness for C1 at `S = "\x7b\x7d"` split as `["\x7b", "\x7d"]`. -/
theorem scanner_fragmentation_witness :
    (∀ c ∈ ([[123], [125]] : List (List Nat)), c ≠ []) ∧
    ([[123], [125]] : List (List Nat)).flatten = [123, 125] ∧
    (scan JsonScanner.new [123, 125]).1 = ScanResult.found 2 ∧
    (feed JsonScanner.new [[123], [125]]).1 =
      [ScanResult.needsMore, ScanResult.found 1] := by
  refine ⟨by decide, by decide, by decide, ?_⟩
  have := scanner_fragmentation [[123]] [125] [123, 125]
    (by decide) (by decide) (by decide)
  simpa using this

/-- C5: while the scanner is inside a string literal no byte changes the
brace depth or ends the object (every byte keeps depth `d` and only moves
among the string states), an escape consumes exactly the following byte
unconditionally (any byte, quote or backslash included, returns to
`InString` at the same depth), and the concrete object
`\x7b"a":"\x7b"\x7d` scans to `Found` at its final closing brace
(offset 9), never at the brace inside the string; likewise
`\x7b"a":"\\""\x7d` with an escaped quote scans to `Found 10`. -/
theorem scanner_string_masking :
    (∀ d b, scanStep ⟨ScanState.inString, d⟩ b =
        StepRes.cont ⟨ScanState.inObject, d⟩ ∨
      scanStep ⟨ScanState.inString, d⟩ b =
        StepRes.cont ⟨ScanState.inEscape, d⟩ ∨
      scanStep ⟨ScanState.inString, d⟩ b =
        StepRes.cont ⟨ScanState.inString, d⟩) ∧
    (∀ d b, scanStep ⟨ScanState.inEscape, d⟩ b =
      StepRes.cont ⟨ScanState.inString, d⟩) ∧
    (scan JsonScanner.new [123, 34, 97, 34, 58, 34, 123, 34, 125]).1 =
      ScanResult.found 9 ∧
    (scan JsonScanner.new [123, 34, 97, 34, 58, 34, 92, 34, 34, 125]).1 =
      ScanResult.found 10 := by
  refine ⟨?_, ?_, by decide, by decide⟩
  · intro d b
    by_cases h34 : b = 34
    · left; simp [scanStep, h34]
    · by_cases h92 : b = 92
      · right; left; simp [scanStep, h34, h92]
      · right; right; simp [scanStep, h34, h92]
  · intro d b
    rfl

/-- The scanner states reachable from a fresh `JsonScanner` by any
sequence of `scan` calls on any inputs. -/
inductive Reachable : JsonScanner → Prop where
  | init : Reachable JsonScanner.new
  | step (s : JsonScanner) (input : List Nat) :
      Reachable s → Reachable (scan s input).2

/-- The depth invariant of C9. -/
def DepthInv (s : JsonScanner) : Prop :=
  (s.state = ScanState.lookingForStart → s.brace_depth = 0) ∧
  (s.state ≠ ScanState.lookingForStart → 1 ≤ s.brace_depth)

/-- The scanner carried out of a single loop step. -/
def StepRes.scanner : StepRes → JsonScanner
  | StepRes.cont s => s
  | StepRes.found s => s
  | StepRes.err s => s

theorem scanStep_inv (s : JsonScanner) (b : Nat) (h : DepthInv s) :
    DepthInv (scanStep s b).scanner := by
  obtain ⟨h0, h1⟩ := h
  rcases s with ⟨st, d⟩
  cases st with
  | lookingForStart =>
    have hd0 : d = 0 := h0 rfl
    subst hd0
    simp only [scanStep]
    split_ifs with hws hbr
    · exact ⟨fun _ => rfl, fun hc => absurd rfl hc⟩
    · exact ⟨fun hh => ScanState.noConfusion hh, fun _ => le_refl 1⟩
    · exact ⟨fun _ => rfl, fun hc => absurd rfl hc⟩
  | inObject =>
    have hd : 1 ≤ d := h1 (fun hh => ScanState.noConfusion hh)
    simp only [scanStep]
    split_ifs with hbr hcl hz hq
    · exact ⟨fun hh => ScanState.noConfusion hh, fun _ => Nat.le_add_left 1 d⟩
    · exact ⟨fun _ => rfl, fun hc => absurd rfl hc⟩
    · exact ⟨fun hh => ScanState.noConfusion hh,
        fun _ => Nat.one_le_iff_ne_zero.mpr hz⟩
    · exact ⟨fun hh => ScanState.noConfusion hh, fun _ => hd⟩
    · exact ⟨fun hh => ScanState.noConfusion hh, fun _ => hd⟩
  | inString =>
    have hd : 1 ≤ d := h1 (fun hh => ScanState.noConfusion hh)
    simp only [scanStep]
    split_ifs with hq he
    · exact ⟨fun hh => ScanState.noConfusion hh, fun _ => hd⟩
    · exact ⟨fun hh => ScanState.noConfusion hh, fun _ => hd⟩
    · exact ⟨fun hh => ScanState.noConfusion hh, fun _ => hd⟩
  | inEscape =>
    have hd : 1 ≤ d := h1 (fun hh => ScanState.noConfusion hh)
    exact ⟨fun hh => ScanState.noConfusion hh, fun _ => hd⟩

theorem scanGo_inv (l : List Nat) (s : JsonScanner) (i : Nat)
    (h : DepthInv s) : DepthInv (scanGo s l i).2 := by
  induction l generalizing s i with
  | nil => simpa [scanGo] using h
  | cons b rest ih =>
    have hstep := scanStep_inv s b h
    simp only [scanGo]
    cases hs : scanStep s b with
    | cont s' =>
      rw [hs] at hstep
      exact ih s' (i + 1) hstep
    | found s' =>
      rw [hs] at hstep
      exact hstep
    | err s' =>
      rw [hs] at hstep
      exact hstep

/-- C9: every scanner state reachable from a fresh scanner by any
sequence of `scan` calls has `brace_depth ≥ 1` whenever the state is
`InObject`, `InString` or `InEscape`, and `brace_depth = 0` whenever the
state is `LookingForStart`; hence the depth decrement on a closing brace
is always applied at depth at least 1 and never underflows. -/
theorem scanner_depth_invariant (s : JsonScanner) (h : Reachable s) :
    (s.state ≠ ScanState.lookingForStart → 1 ≤ s.brace_depth) ∧
    (s.state = ScanState.lookingForStart → s.brace_depth = 0) := by
  have inv : DepthInv s := by
    induction h with
    | init => exact ⟨fun _ => rfl, by simp [JsonScanner.new]⟩
    | step s' input _ ih => exact scanGo_inv input s' 0 ih
  exact ⟨inv.2, inv.1⟩

/-- Witness for C9 at the freshly created scanner. -/
theorem scanner_depth_invariant_witness :
    (JsonScanner.new.state ≠ ScanState.lookingForStart →
      1 ≤ JsonScanner.new.brace_depth) ∧
    (JsonScanner.new.state = ScanState.lookingForStart →
      JsonScanner.new.brace_depth = 0) :=
  scanner_depth_invariant JsonScanner.new Reachable.init

/-! ## Message/content data model (`src/anthropic.rs`)

`serde_json::Value` is embedded as the inductive `Json` (numbers as
integers).  The serde-derived wire format of each type, fixed by its
`#[derive]` and `#[serde(...)]` attributes in `anthropic.rs` and
`conversation.rs`, is embedded as explicit encode/decode functions over
`Json`. -/

/-- `serde_json::Value`. -/
inductive Json where
  | null
  | bool (b : Bool)
  | num (n : Int)
  | str (s : String)
  | arr (elems : List Json)
  | obj (fields : List (String × Json))

/-- Looking up a field of a JSON object by name (first match). -/
def lookupField : List (String × Json) → String → Option Json
  | [], _ => none
  | (k, v) :: rest, key => if k = key then some v else lookupField rest key

theorem sizeOf_lookupField (fs : List (String × Json)) (key : String)
    (v : Json) (h : lookupField fs key = some v) : sizeOf v < sizeOf fs := by
  induction fs with
  | nil => simp [lookupField] at h
  | cons p rest ih =>
    rcases p with ⟨k, w⟩
    simp only [lookupField] at h
    by_cases hk : k = key
    · rw [if_pos hk] at h
      cases h
      simp
      omega
    · rw [if_neg hk] at h
      have := ih h
      simp
      omega

/-- `Role` (serde: `rename_all = "snake_case"`). -/
inductive Role where
  | user
  | assistant
deriving DecidableEq, Repr

/-- `ToolUse`. -/
structure ToolUse where
  id : String
  name : String
  input : Json

mutual
/-- `Content` (serde: internally tagged with `tag = "type"`,
`rename_all = "snake_case"`). -/
inductive Content where
  | text (text : String)
  | image
  | toolUse (tu : ToolUse)
  | toolResult (tr : ToolResult)
/-- `ToolResult`: `tool_use_id`, `content`, optional `is_error`
(`skip_serializing_if = "Option::is_none"`). -/
inductive ToolResult where
  | mk (tool_use_id : String) (content : ToolResultContent)
      (is_error : Option Bool)
/-- `ToolResultContent` (serde: `untagged`; variants tried in
declaration order: `Content` first, then `String`). -/
inductive ToolResultContent where
  | content (pieces : List Content)
  | str (s : String)
end

/-- `ToolResult.tool_use_id` projection. -/
def ToolResult.tool_use_id : ToolResult → String
  | ToolResult.mk i _ _ => i

/-- `ToolResult.content` projection. -/
def ToolResult.content : ToolResult → ToolResultContent
  | ToolResult.mk _ c _ => c

/-- `ToolResult.is_error` projection. -/
def ToolResult.is_error : ToolResult → Option Bool
  | ToolResult.mk _ _ e => e

/-- `Content::from_text`. -/
def Content.from_text (text : String) : Content := Content.text text

/-- `Message`: a role together with ordered content pieces. -/
structure Message where
  role : Role
  content : List Content

/-- `Message::from_text`. -/
def Message.from_text (role : Role) (text : String) : Message :=
  ⟨role, [Content.from_text text]⟩

/-- `Tool`: name, description and a JSON schema value. -/
structure Tool where
  name : String
  description : String
  input_schema : Json

/-- `Usage`. -/
structure Usage where
  input_tokens : Nat
  output_tokens : Nat
deriving DecidableEq, Repr

/-- `StopReason` (serde: `rename_all = "snake_case"`). -/
inductive StopReason where
  | endTurn
  | maxTokens
  | stopSequence
  | toolUse
  | pauseTurn
  | refusal
deriving DecidableEq, Repr

/-- `MessagesResponse`: envelope of a successful `message` response; the
`role`/`content` pair is a `#[serde(flatten)]`ed `Message`. -/
structure MessagesResponse where
  id : String
  model : String
  stop_reason : StopReason
  stop_sequence : Option String
  usage : Usage
  message : Message

/-- `ApiError` (serde: tagged by `type`, `rename_all = "snake_case"`). -/
inductive ApiError where
  | invalidRequestError
  | authenticationError
  | permissionError
  | notFoundError
  | requestTooLarge
  | rateLimitError
  | apiError
  | overloadedError
deriving DecidableEq, Repr

/-- `StreamingUsage`: partial usage statistics, fields may be absent. -/
structure StreamingUsage where
  input_tokens : Option Nat
  output_tokens : Option Nat
deriving DecidableEq, Repr

/-- `StreamingMessage`: the accumulator of an active streaming turn. -/
structure StreamingMessage where
  id : String
  model : String
  stop_reason : Option StopReason
  stop_sequence : Option String
  usage : Usage
  role : Role
  content : List Content

/-- `MessageDelta`: delta updates to the message itself. -/
structure MessageDelta where
  stop_reason : Option StopReason
  stop_sequence : Option String

/-- `StreamingMessage::update`: merge a `MessageDelta`, taking each field
only when present. -/
def StreamingMessage.update (m : StreamingMessage) (delta : MessageDelta) :
    StreamingMessage :=
  { m with
    stop_reason :=
      match delta.stop_reason with
      | some r => some r
      | none => m.stop_reason,
    stop_sequence :=
      match delta.stop_sequence with
      | some s => some s
      | none => m.stop_sequence }

/-! ## Serde-derived wire format over `Json` -/

/-- Serialization of `Role` (`rename_all = "snake_case"`). -/
def encodeRole : Role → Json
  | Role.user => Json.str "user"
  | Role.assistant => Json.str "assistant"

/-- Deserialization of `Role`. -/
def decodeRole : Json → Option Role
  | Json.str "user" => some Role.user
  | Json.str "assistant" => some Role.assistant
  | _ => none

mutual
/-- Serialization of `Content`: internally tagged by `type`, snake_case
variant names, newtype variants flattened; `ToolResult.is_error` is
skipped when `None`. -/
def encodeContent : Content → Json
  | Content.text t => Json.obj [("type", Json.str "text"), ("text", Json.str t)]
  | Content.image => Json.obj [("type", Json.str "image")]
  | Content.toolUse tu =>
    Json.obj [("type", Json.str "tool_use"), ("id", Json.str tu.id),
      ("name", Json.str tu.name), ("input", tu.input)]
  | Content.toolResult (ToolResult.mk tid tc ie) =>
    Json.obj (("type", Json.str "tool_result") ::
      ("tool_use_id", Json.str tid) :: ("content", encodeTRC tc) ::
      (match ie with
       | none => []
       | some b => [("is_error", Json.bool b)]))
/-- Serialization of `ToolResultContent` (`untagged`). -/
def encodeTRC : ToolResultContent → Json
  | ToolResultContent.content l => Json.arr (encodeContentList l)
  | ToolResultContent.str s => Json.str s
/-- Serialization of a list of content pieces. -/
def encodeContentList : List Content → List Json
  | [] => []
  | c :: cs => encodeContent c :: encodeContentList cs
end

mutual
/-- Deserialization of `Content`, dispatching on the `type` tag. -/
def decodeContent : Json → Option Content
  | Json.obj fields =>
    match lookupField fields "type" with
    | some (Json.str "text") =>
      match lookupField fields "text" with
      | some (Json.str t) => some (Content.text t)
      | _ => none
    | some (Json.str "image") => some Content.image
    | some (Json.str "tool_use") =>
      match lookupField fields "id", lookupField fields "name",
          lookupField fields "input" with
      | some (Json.str i), some (Json.str n), some inp =>
        some (Content.toolUse ⟨i, n, inp⟩)
      | _, _, _ => none
    | some (Json.str "tool_result") =>
      match lookupField fields "tool_use_id" with
      | some (Json.str tid) =>
        match h : lookupField fields "content" with
        | some cj =>
          match decodeTRC cj with
          | some tc =>
            match lookupField fields "is_error" with
            | some (Json.bool b) =>
              some (Content.toolResult (ToolResult.mk tid tc (some b)))
            | none => some (Content.toolResult (ToolResult.mk tid tc none))
            | some _ => none
          | none => none
        | none => none
      | _ => none
    | _ => none
  | _ => none
termination_by j => sizeOf j
decreasing_by
  simp_wf
  have := sizeOf_lookupField fields "content" cj h
  omega
/-- Deserialization of `ToolResultContent`: untagged, so the `Content`
(list) variant is tried first, then `String`. -/
def decodeTRC : Json → Option ToolResultContent
  | Json.arr elems =>
    match decodeContentList elems with
    | some l => some (ToolResultContent.content l)
    | none => none
  | Json.str s => some (ToolResultContent.str s)
  | _ => none
termination_by j => sizeOf j
decreasing_by
  simp_wf
/-- Deserialization of a list of content pieces (all-or-nothing). -/
def decodeContentList : List Json → Option (List Content)
  | [] => some []
  | j :: js =>
    match decodeContent j, decodeContentList js with
    | some c, some cs => some (c :: cs)
    | _, _ => none
termination_by js => sizeOf js
decreasing_by
  all_goals simp_wf
  all_goals omega
end

/-- Serialization of `StopReason` (`rename_all = "snake_case"`). -/
def encodeStopReason : StopReason → Json
  | StopReason.endTurn => Json.str "end_turn"
  | StopReason.maxTokens => Json.str "max_tokens"
  | StopReason.stopSequence => Json.str "stop_sequence"
  | StopReason.toolUse => Json.str "tool_use"
  | StopReason.pauseTurn => Json.str "pause_turn"
  | StopReason.refusal => Json.str "refusal"

/-- Deserialization of `StopReason`. -/
def decodeStopReason : Json → Option StopReason
  | Json.str "end_turn" => some StopReason.endTurn
  | Json.str "max_tokens" => some StopReason.maxTokens
  | Json.str "stop_sequence" => some StopReason.stopSequence
  | Json.str "tool_use" => some StopReason.toolUse
  | Json.str "pause_turn" => some StopReason.pauseTurn
  | Json.str "refusal" => some StopReason.refusal
  | _ => none

/-- Serialization of `Usage`. -/
def encodeUsage (u : Usage) : Json :=
  Json.obj [("input_tokens", Json.num u.input_tokens),
    ("output_tokens", Json.num u.output_tokens)]

/-- Deserialization of a `u32` field: a non-negative integer below
`2 ^ 32`. -/
def decodeU32 : Json → Option Nat
  | Json.num n => if 0 ≤ n ∧ n < 4294967296 then some n.toNat else none
  | _ => none

/-- Deserialization of `Usage`. -/
def decodeUsage : Json → Option Usage
  | Json.obj fields =>
    match lookupField fields "input_tokens",
        lookupField fields "output_tokens" with
    | some i, some o =>
      match decodeU32 i, decodeU32 o with
      | some it, some ot => some ⟨it, ot⟩
      | _, _ => none
    | _, _ => none
  | _ => none

/-- Serialization of `Tool` (plain derived struct serializer). -/
def encodeTool (t : Tool) : Json :=
  Json.obj [("name", Json.str t.name), ("description", Json.str t.description),
    ("input_schema", t.input_schema)]

/-- Deserialization of `Tool`. -/
def decodeTool : Json → Option Tool
  | Json.obj fields =>
    match lookupField fields "name", lookupField fields "description",
        lookupField fields "input_schema" with
    | some (Json.str n), some (Json.str d), some sch => some ⟨n, d, sch⟩
    | _, _, _ => none
  | _ => none

/-- Serialization of `Message` (derived struct serializer: `role`, then
`content` as an array). -/
def encodeMessage (m : Message) : Json :=
  Json.obj [("role", encodeRole m.role),
    ("content", Json.arr (encodeContentList m.content))]

/-- Deserialization of `Message`. -/
def decodeMessage : Json → Option Message
  | Json.obj fields =>
    match lookupField fields "role", lookupField fields "content" with
    | some rj, some (Json.arr elems) =>
      match decodeRole rj, decodeContentList elems with
      | some r, some cs => some ⟨r, cs⟩
      | _, _ => none
    | _, _ => none
  | _ => none

/-- Serialization of a message list. -/
def encodeMessageList : List Message → List Json
  | [] => []
  | m :: ms => encodeMessage m :: encodeMessageList ms

/-- Deserialization of a message list (all-or-nothing). -/
def decodeMessageList : List Json → Option (List Message)
  | [] => some []
  | j :: js =>
    match decodeMessage j, decodeMessageList js with
    | some m, some ms => some (m :: ms)
    | _, _ => none

/-- Serialization of a tool list. -/
def encodeToolList : List Tool → List Json
  | [] => []
  | t :: ts => encodeTool t :: encodeToolList ts

/-- Deserialization of a tool list (all-or-nothing). -/
def decodeToolList : List Json → Option (List Tool)
  | [] => some []
  | j :: js =>
    match decodeTool j, decodeToolList js with
    | some t, some ts => some (t :: ts)
    | _, _ => none

theorem decodeRole_encodeRole (r : Role) : decodeRole (encodeRole r) = some r := by
  cases r <;> rfl

mutual
theorem decodeContent_encodeContent (c : Content) :
    decodeContent (encodeContent c) = some c := by
  cases c with
  | text t => simp [encodeContent, decodeContent, lookupField]
  | image => simp [encodeContent, decodeContent, lookupField]
  | toolUse tu => simp [encodeContent, decodeContent, lookupField]
  | toolResult tr =>
    cases tr with
    | mk tid tc ie =>
      have htc := decodeTRC_encodeTRC tc
      cases ie with
      | none => simp [encodeContent, decodeContent, lookupField, htc]
      | some b => simp [encodeContent, decodeContent, lookupField, htc]
termination_by sizeOf c
decreasing_by
  all_goals simp_wf
  all_goals try simp
  all_goals omega
theorem decodeTRC_encodeTRC (t : ToolResultContent) :
    decodeTRC (encodeTRC t) = some t := by
  cases t with
  | content l =>
    have hl := decodeContentList_encodeContentList l
    simp [encodeTRC, decodeTRC, hl]
  | str s => simp [encodeTRC, decodeTRC]
termination_by sizeOf t
decreasing_by
  all_goals simp_wf
  all_goals try simp
  all_goals omega
theorem decodeContentList_encodeContentList (l : List Content) :
    decodeContentList (encodeContentList l) = some l := by
  cases l with
  | nil => simp [encodeContentList, decodeContentList]
  | cons c cs =>
    have h1 := decodeContent_encodeContent c
    have h2 := decodeContentList_encodeContentList cs
    simp [encodeContentList, decodeContentList, h1, h2]
termination_by sizeOf l
decreasing_by
  all_goals simp_wf
  all_goals try simp
  all_goals omega
end

/-! ## Conversation engine (`src/conversation.rs`) -/

/-- `Conversation`: system prompt, ordered message history, ordered tool
list (`im::Vector` embedded as `List`). -/
structure Conversation where
  system : Option String
  messages : List Message
  tools : List Tool

/-- `Conversation::new`. -/
def Conversation.new : Conversation := ⟨none, [], []⟩

/-- `Conversation::clear`: replaces the message history with an empty
one, touching nothing else. -/
def Conversation.clear (c : Conversation) : Conversation :=
  { c with messages := [] }

/-- `Conversation::set_system`. -/
def Conversation.set_system (c : Conversation) (system : String) :
    Conversation :=
  { c with system := some system }

/-- `Conversation::add_tool`. -/
def Conversation.add_tool (c : Conversation) (tool : Tool) : Conversation :=
  { c with tools := c.tools ++ [tool] }

/-- `Conversation::to_json` (derived serde serializer for the struct,
fields `system` — `null` when unset — then `messages` then `tools`). -/
def Conversation.to_json (c : Conversation) : Json :=
  Json.obj [
    ("system", match c.system with
      | none => Json.null
      | some s => Json.str s),
    ("messages", Json.arr (encodeMessageList c.messages)),
    ("tools", Json.arr (encodeToolList c.tools))]

/-- `Conversation::from_json` (derived serde deserializer; an absent or
`null` `system` is `None`). -/
def Conversation.from_json : Json → Option Conversation
  | Json.obj fields =>
    match
      (match lookupField fields "system" with
       | none => some none
       | some Json.null => some none
       | some (Json.str s) => some (some s)
       | some _ => none) with
    | some sys =>
      match lookupField fields "messages", lookupField fields "tools" with
      | some (Json.arr mjs), some (Json.arr tjs) =>
        match decodeMessageList mjs, decodeToolList tjs with
        | some ms, some ts => some ⟨sys, ms, ts⟩
        | _, _ => none
      | _, _ => none
    | none => none
  | _ => none

theorem decodeTool_encodeTool (t : Tool) : decodeTool (encodeTool t) = some t := by
  rcases t with ⟨n, d, s⟩
  simp [encodeTool, decodeTool, lookupField]

theorem decodeMessage_encodeMessage (m : Message) :
    decodeMessage (encodeMessage m) = some m := by
  rcases m with ⟨r, cs⟩
  simp [encodeMessage, decodeMessage, lookupField, decodeRole_encodeRole,
    decodeContentList_encodeContentList]

theorem decodeMessageList_encodeMessageList (ms : List Message) :
    decodeMessageList (encodeMessageList ms) = some ms := by
  induction ms with
  | nil => rfl
  | cons m rest ih =>
    simp [encodeMessageList, decodeMessageList, decodeMessage_encodeMessage, ih]

theorem decodeToolList_encodeToolList (ts : List Tool) :
    decodeToolList (encodeToolList ts) = some ts := by
  induction ts with
  | nil => rfl
  | cons t rest ih =>
    simp [encodeToolList, decodeToolList, decodeTool_encodeTool, ih]

/-- `ApiResponse`/`Error` deserialization of the typed API error
(serde: tagged by `type`, `rename_all = "snake_case"`). -/
def decodeApiError : Json → Option ApiError
  | Json.obj fields =>
    match lookupField fields "type" with
    | some (Json.str "invalid_request_error") => some ApiError.invalidRequestError
    | some (Json.str "authentication_error") => some ApiError.authenticationError
    | some (Json.str "permission_error") => some ApiError.permissionError
    | some (Json.str "not_found_error") => some ApiError.notFoundError
    | some (Json.str "request_too_large") => some ApiError.requestTooLarge
    | some (Json.str "rate_limit_error") => some ApiError.rateLimitError
    | some (Json.str "api_error") => some ApiError.apiError
    | some (Json.str "overloaded_error") => some ApiError.overloadedError
    | _ => none
  | _ => none

/-- Deserialization of an optional string field (absent or `null` is
`None`). -/
def decodeOptString : Option Json → Option (Option String)
  | none => some none
  | some Json.null => some none
  | some (Json.str s) => some (some s)
  | some _ => none

/-- Deserialization of `MessagesResponse`: envelope fields plus the
`#[serde(flatten)]`ed `Message`, whose `role`/`content` are read from
the same object. -/
def decodeMessagesResponse : Json → Option MessagesResponse
  | Json.obj fields =>
    match lookupField fields "id", lookupField fields "model",
        lookupField fields "stop_reason", lookupField fields "usage" with
    | some (Json.str i), some (Json.str mo), some srj, some uj =>
      match decodeStopReason srj,
          decodeOptString (lookupField fields "stop_sequence"),
          decodeUsage uj, decodeMessage (Json.obj fields) with
      | some sr, some ss, some u, some msg => some ⟨i, mo, sr, ss, u, msg⟩
      | _, _, _, _ => none
    | _, _, _, _ => none
  | _ => none

/-- `serde_json::Value::get` on an object. -/
def jsonGet (j : Json) (key : String) : Option Json :=
  match j with
  | Json.obj fields => lookupField fields key
  | _ => none

/-- Modelled from the spec: `ResponseError`, the error type of
`Conversation::handle_response`, is declared in code that is not under
`src/`; per the error taxonomy it separates decode errors (malformed
JSON or a structurally unexpected shape) from typed provider API
errors. -/
inductive ResponseError where
  | decode (msg : String)
  | api (e : ApiError)
deriving DecidableEq, Repr

/-- `deserialize_response`, following the `ApiResponseHelper` dispatch in
`lib.rs`: inspect the `type` discriminator, turn an `error` envelope into
a typed API error, decode a `message` envelope as a `MessagesResponse`
(as `Conversation::handle_response` expects), and reject anything
else. -/
def deserialize_response (j : Json) : Except ResponseError MessagesResponse :=
  match jsonGet j "type" with
  | some (Json.str "error") =>
    match jsonGet j "error" with
    | some ev =>
      match decodeApiError ev with
      | some e => Except.error (ResponseError.api e)
      | none => Except.error (ResponseError.decode "invalid error value")
    | none => Except.error (ResponseError.decode "missing field error")
  | some (Json.str "message") =>
    match decodeMessagesResponse j with
    | some r => Except.ok r
    | none => Except.error (ResponseError.decode "invalid message response")
  | some _ => Except.error (ResponseError.decode "Unknown response type")
  | none => Except.error (ResponseError.decode "missing field type")

/-- `conversation::Action`. -/
inductive Action where
  | handleAgentMessage (contents : List Content)

/-- `Conversation::handle_response`: parse the response; on failure the
error propagates (`?`) with the conversation untouched; on success the
assistant message is pushed onto the history and its content returned as
the action. -/
def handle_response (c : Conversation) (response : Json) :
    Except ResponseError Action × Conversation :=
  match deserialize_response response with
  | Except.error e => (Except.error e, c)
  | Except.ok r =>
    (Except.ok (Action.handleAgentMessage r.message.content),
     { c with messages := c.messages ++ [r.message] })

/-- `Api` from `lib.rs`. -/
structure Api where
  api_key : String
  default_model : String
  default_max_tokens : Nat
  endpoint_host : String

/-- `Api::new`. -/
def Api.new (api_key : String) : Api :=
  ⟨api_key, "claude-sonnet-4-20250514", 1024, "api.anthropic.com"⟩

/-- Modelled from the spec: the body of the outbound request assembled by
`MessagesRequestBuilder` (the builder variant with
`set_messages`/`system`/`set_tools` used by `Conversation::build_message`
is not under `src/`): `\x7bmodel, max_tokens, system?, messages,
tools?, stream?\x7d`, snapshotting the entire current history, carrying
the system prompt when set and the tool list when non-empty. -/
structure MessagesBodySnapshot where
  model : String
  max_tokens : Nat
  system : Option String
  messages : List Message
  tools : Option (List Tool)
  stream : Bool

/-- `Conversation::build_message`: push the message onto the history,
then build a request from the entire updated history, the system prompt
when set and the tool list when non-empty. -/
def build_message (api : Api) (c : Conversation) (message : Message) :
    MessagesBodySnapshot × Conversation :=
  let c' := { c with messages := c.messages ++ [message] }
  ({ model := api.default_model,
     max_tokens := api.default_max_tokens,
     system := c'.system,
     messages := c'.messages,
     tools := if c'.tools.isEmpty then none else some c'.tools,
     stream := false }, c')

/-- `Conversation::user_message`: wraps the text in a single-`Text`-piece
`User` message. -/
def user_message (api : Api) (c : Conversation) (text : String) :
    MessagesBodySnapshot × Conversation :=
  build_message api c (Message.from_text Role.user text)

/-- `Conversation::tool_result`: wraps the tool result in a `User`
message whose content is the list of `ToolResult` pieces. -/
def tool_result (api : Api) (c : Conversation) (tr : ToolResult) :
    MessagesBodySnapshot × Conversation :=
  build_message api c ⟨Role.user, [Content.toolResult tr]⟩

/-! ## Streaming reducer pieces (`src/anthropic.rs` and spec §4.2) -/

/-- Modelled from the spec: merging the partial usage of a
`message_delta` event into the accumulated usage — each field present in
the partial usage replaces the accumulator's, an absent field keeps the
prior value.  (The reducer that consumes `StreamEvent::MessageDelta` is
not under `src/`; `StreamingMessage::update` in `anthropic.rs` handles
only the stop fields.) -/
def applyStreamingUsage (u : Usage) (su : StreamingUsage) : Usage :=
  ⟨su.input_tokens.getD u.input_tokens, su.output_tokens.getD u.output_tokens⟩

/-- Modelled from the spec: handling one `message_delta` event — apply
`StreamingMessage::update` for the delta fields and merge the optional
partial usage. -/
def applyMessageDeltaEvent (m : StreamingMessage) (delta : MessageDelta)
    (usage : Option StreamingUsage) : StreamingMessage :=
  let m' := m.update delta
  match usage with
  | none => m'
  | some su => { m' with usage := applyStreamingUsage m'.usage su }

/-! ## Retry policy (`examples/assistant/main.rs::send_request`) -/

/-- One HTTP response as observed by `send_request`: its status code,
the parsed `retry-after` header when present and parseable, and its
body text. -/
structure HttpResponse where
  status : Nat
  retry_after : Option Nat
  body : String
deriving DecidableEq, Repr

/-- The rate-limit signal: status 429 or 420. -/
def isRateLimited (r : HttpResponse) : Bool :=
  r.status = 429 || r.status = 420

/-- `StatusCode::is_success`: 2xx. -/
def isSuccessStatus (n : Nat) : Bool :=
  200 ≤ n && n ≤ 299

/-- Observable outcome of `send_request`: its return value, how many
requests were issued, and the waits slept between attempts (each the
provider-supplied `retry-after` when present, 1 second otherwise). -/
structure SendOutcome where
  result : Except String String
  attempts : Nat
  waits : List Nat
deriving Repr

/-- The `while retries_left > 0` loop of `send_request`, run against an
environment listing the successive responses the transport would
deliver; exhausting the environment stands for a transport send
failure. -/
def sendGo : Nat → List HttpResponse → SendOutcome
  | 0, _ => ⟨Except.error "Rate limit exceeded.", 0, []⟩
  | _ + 1, [] => ⟨Except.error "Failed to send request", 1, []⟩
  | n + 1, r :: rest =>
    if isRateLimited r then
      let o := sendGo n rest
      ⟨o.result, o.attempts + 1, r.retry_after.getD 1 :: o.waits⟩
    else if isSuccessStatus r.status then ⟨Except.ok r.body, 1, []⟩
    else
      ⟨Except.error ("Request failed with HTTP " ++ toString r.status ++
        ": " ++ r.body), 1, []⟩

/-- `send_request`: the loop starts with `retries_left = 3`. -/
def send_request (responses : List HttpResponse) : SendOutcome :=
  sendGo 3 responses

/-! ## Claims about the conversation engine, streaming and retry -/

/-- C2: for every conversation state and every response document whose
deserialization fails (malformed shape or an error envelope),
`handle_response` returns that error and leaves the conversation — in
particular its message history, contents included — unchanged. -/
theorem handle_response_error_frame (c : Conversation) (j : Json)
    (e : ResponseError) (h : deserialize_response j = Except.error e) :
    (handle_response c j).1 = Except.error e ∧
    (handle_response c j).2 = c ∧
    (handle_response c j).2.messages = c.messages := by
  refine ⟨?_, ?_, ?_⟩ <;> simp [handle_response, h]

/-- Witness for C2 at an error-envelope response and a concrete
conversation. -/
theorem handle_response_error_frame_witness :
    deserialize_response (Json.obj [("type", Json.str "error"),
        ("error", Json.obj [("type", Json.str "rate_limit_error")])]) =
      Except.error (ResponseError.api ApiError.rateLimitError) ∧
    (handle_response ⟨some "sys", [Message.from_text Role.user "hi"], []⟩
        (Json.obj [("type", Json.str "error"),
          ("error", Json.obj [("type", Json.str "rate_limit_error")])])).1 =
      Except.error (ResponseError.api ApiError.rateLimitError) ∧
    (handle_response ⟨some "sys", [Message.from_text Role.user "hi"], []⟩
        (Json.obj [("type", Json.str "error"),
          ("error", Json.obj [("type", Json.str "rate_limit_error")])])).2 =
      ⟨some "sys", [Message.from_text Role.user "hi"], []⟩ := by
  have hd : deserialize_response (Json.obj [("type", Json.str "error"),
      ("error", Json.obj [("type", Json.str "rate_limit_error")])]) =
      Except.error (ResponseError.api ApiError.rateLimitError) := rfl
  exact ⟨hd, (handle_response_error_frame _ _ _ hd).1,
    (handle_response_error_frame _ _ _ hd).2.1⟩

/-- C3: for every conversation state and every response document that
deserializes to a successful message response, `handle_response` appends
exactly the decoded message to the history (length grows by one, last
element is that message) and returns the action carrying exactly that
message's content pieces in order; system prompt and tools are
untouched. -/
theorem handle_response_ok_append (c : Conversation) (j : Json)
    (r : MessagesResponse) (h : deserialize_response j = Except.ok r) :
    (handle_response c j).2.messages = c.messages ++ [r.message] ∧
    (handle_response c j).2.messages.length = c.messages.length + 1 ∧
    (handle_response c j).2.messages.getLast? = some r.message ∧
    (handle_response c j).1 =
      Except.ok (Action.handleAgentMessage r.message.content) ∧
    (handle_response c j).2.system = c.system ∧
    (handle_response c j).2.tools = c.tools := by
  refine ⟨?_, ?_, ?_, ?_, ?_, ?_⟩ <;>
    simp [handle_response, h, List.getLast?_concat]

/-- Witness for C3 at the example response document of
`conversation.rs` and a concrete conversation. -/
theorem handle_response_ok_append_witness :
    deserialize_response (Json.obj [("type", Json.str "message"),
        ("id", Json.str "msg_123"),
        ("model", Json.str "claude-sonnet-4-20250514"),
        ("stop_reason", Json.str "end_turn"), ("stop_sequence", Json.null),
        ("usage", Json.obj [("input_tokens", Json.num 10),
          ("output_tokens", Json.num 5)]),
        ("role", Json.str "assistant"),
        ("content", Json.arr [Json.obj [("type", Json.str "text"),
          ("text", Json.str "Hello!")]])]) =
      Except.ok ⟨"msg_123", "claude-sonnet-4-20250514", StopReason.endTurn,
        none, ⟨10, 5⟩, ⟨Role.assistant, [Content.text "Hello!"]⟩⟩ ∧
    (handle_response ⟨none, [Message.from_text Role.user "Hello!"], []⟩
        (Json.obj [("type", Json.str "message"),
          ("id", Json.str "msg_123"),
          ("model", Json.str "claude-sonnet-4-20250514"),
          ("stop_reason", Json.str "end_turn"), ("stop_sequence", Json.null),
          ("usage", Json.obj [("input_tokens", Json.num 10),
            ("output_tokens", Json.num 5)]),
          ("role", Json.str "assistant"),
          ("content", Json.arr [Json.obj [("type", Json.str "text"),
            ("text", Json.str "Hello!")]])])).2.messages =
      [Message.from_text Role.user "Hello!",
        ⟨Role.assistant, [Content.text "Hello!"]⟩] := by
  have hd : deserialize_response (Json.obj [("type", Json.str "message"),
      ("id", Json.str "msg_123"),
      ("model", Json.str "claude-sonnet-4-20250514"),
      ("stop_reason", Json.str "end_turn"), ("stop_sequence", Json.null),
      ("usage", Json.obj [("input_tokens", Json.num 10),
        ("output_tokens", Json.num 5)]),
      ("role", Json.str "assistant"),
      ("content", Json.arr [Json.obj [("type", Json.str "text"),
        ("text", Json.str "Hello!")]])]) =
      Except.ok ⟨"msg_123", "claude-sonnet-4-20250514", StopReason.endTurn,
        none, ⟨10, 5⟩, ⟨Role.assistant, [Content.text "Hello!"]⟩⟩ := by
    simp [deserialize_response, jsonGet, lookupField, decodeMessagesResponse,
      decodeStopReason, decodeOptString, decodeUsage, decodeU32,
      decodeMessage, decodeRole, decodeContentList, decodeContent]
  refine ⟨hd, ?_⟩
  have happ := (handle_response_ok_append
    ⟨none, [Message.from_text Role.user "Hello!"], []⟩ _ _ hd).1
  rw [happ]
  rfl

/-- C4: each turn operation appends exactly one `User` message to the
history — `user_message` one with a single `Text` piece holding the
given text, `tool_result` one whose content is the list of `ToolResult`
pieces — leaving the system prompt and tool list unchanged, and returns
a request body snapshotting the entire history including the
just-appended message, the system prompt when set, and the tool list
exactly when it is non-empty. -/
theorem turn_operations_snapshot (api : Api) (c : Conversation)
    (text : String) (tr : ToolResult) :
    (user_message api c text).2.messages =
      c.messages ++ [⟨Role.user, [Content.text text]⟩] ∧
    (user_message api c text).2.system = c.system ∧
    (user_message api c text).2.tools = c.tools ∧
    (user_message api c text).1.messages = (user_message api c text).2.messages ∧
    (user_message api c text).1.system = c.system ∧
    (user_message api c text).1.tools =
      (if c.tools.isEmpty then none else some c.tools) ∧
    (tool_result api c tr).2.messages =
      c.messages ++ [⟨Role.user, [Content.toolResult tr]⟩] ∧
    (tool_result api c tr).2.system = c.system ∧
    (tool_result api c tr).2.tools = c.tools ∧
    (tool_result api c tr).1.messages = (tool_result api c tr).2.messages ∧
    (tool_result api c tr).1.system = c.system ∧
    (tool_result api c tr).1.tools =
      (if c.tools.isEmpty then none else some c.tools) := by
  refine ⟨?_, ?_, ?_, ?_, ?_, ?_, ?_, ?_, ?_, ?_, ?_, ?_⟩ <;>
    simp [user_message, tool_result, build_message, Message.from_text,
      Content.from_text]

/-- C6: when the first three responses all signal rate limiting,
`send_request` issues exactly three requests and returns the fatal
rate-limit error — any fourth response, successful or not, is never
reached — and each retry waits the provider-supplied `retry-after`
duration when present, 1 second otherwise. -/
theorem retry_bound (r1 r2 r3 : HttpResponse) (rest : List HttpResponse)
    (h1 : isRateLimited r1 = true) (h2 : isRateLimited r2 = true)
    (h3 : isRateLimited r3 = true) :
    (send_request (r1 :: r2 :: r3 :: rest)).result =
      Except.error "Rate limit exceeded." ∧
    (send_request (r1 :: r2 :: r3 :: rest)).attempts = 3 ∧
    (send_request (r1 :: r2 :: r3 :: rest)).waits =
      [r1.retry_after.getD 1, r2.retry_after.getD 1, r3.retry_after.getD 1] := by
  refine ⟨?_, ?_, ?_⟩ <;> simp [send_request, sendGo, h1, h2, h3]

/-- Witness for C6: three rate-limit responses followed by a successful
response that is never consumed. -/
theorem retry_bound_witness :
    isRateLimited ⟨429, some 2, ""⟩ = true ∧
    isRateLimited ⟨429, none, ""⟩ = true ∧
    isRateLimited ⟨420, some 5, ""⟩ = true ∧
    (send_request [⟨429, some 2, ""⟩, ⟨429, none, ""⟩, ⟨420, some 5, ""⟩,
        ⟨200, none, "ok"⟩]).result = Except.error "Rate limit exceeded." ∧
    (send_request [⟨429, some 2, ""⟩, ⟨429, none, ""⟩, ⟨420, some 5, ""⟩,
        ⟨200, none, "ok"⟩]).attempts = 3 ∧
    (send_request [⟨429, some 2, ""⟩, ⟨429, none, ""⟩, ⟨420, some 5, ""⟩,
        ⟨200, none, "ok"⟩]).waits = [2, 1, 5] := by
  have h := retry_bound ⟨429, some 2, ""⟩ ⟨429, none, ""⟩ ⟨420, some 5, ""⟩
    [⟨200, none, "ok"⟩] (by decide) (by decide) (by decide)
  exact ⟨by decide, by decide, by decide, h.1, h.2.1, h.2.2.trans rfl⟩

/-- C7: serializing any conversation value (any system prompt, history
and tool list) with `to_json` and deserializing the produced document
with `from_json` succeeds and yields the original conversation. -/
theorem conversation_roundtrip (c : Conversation) :
    Conversation.from_json (Conversation.to_json c) = some c := by
  rcases c with ⟨sys, ms, ts⟩
  cases sys <;>
    simp [Conversation.to_json, Conversation.from_json, lookupField,
      decodeMessageList_encodeMessageList, decodeToolList_encodeToolList]

/-- C8: applying a `message_delta` event merges only the fields present —
a present `stop_reason`/`stop_sequence` becomes the latest value, an
absent one keeps the prior value, the optional partial usage is merged
field-by-field into the accumulated usage — while `id`, `model`, `role`
and `content` are unchanged. -/
theorem message_delta_merge (m : StreamingMessage) (delta : MessageDelta)
    (usage : Option StreamingUsage) :
    (applyMessageDeltaEvent m delta usage).stop_reason =
      (match delta.stop_reason with
       | some r => some r
       | none => m.stop_reason) ∧
    (applyMessageDeltaEvent m delta usage).stop_sequence =
      (match delta.stop_sequence with
       | some s => some s
       | none => m.stop_sequence) ∧
    (applyMessageDeltaEvent m delta usage).id = m.id ∧
    (applyMessageDeltaEvent m delta usage).model = m.model ∧
    (applyMessageDeltaEvent m delta usage).role = m.role ∧
    (applyMessageDeltaEvent m delta usage).content = m.content ∧
    (applyMessageDeltaEvent m delta usage).usage =
      (match usage with
       | none => m.usage
       | some su => ⟨su.input_tokens.getD m.usage.input_tokens,
           su.output_tokens.getD m.usage.output_tokens⟩) := by
  rcases delta with ⟨dsr, dss⟩
  cases dsr <;> cases dss <;> cases usage <;>
    simp [applyMessageDeltaEvent, StreamingMessage.update, applyStreamingUsage]

/-- C10: `clear` empties the message history and leaves the system
prompt and the registered tool list exactly as they were. -/
theorem clear_frame (c : Conversation) :
    (c.clear).messages = [] ∧ (c.clear).system = c.system ∧
    (c.clear).tools = c.tools :=
  ⟨rfl, rfl, rfl⟩

end Claus
